import Mathlib

/-!
Verification of the household-inventory tracker (`src/app.js`) against its
natural-language specification.

The JavaScript program is shallowly embedded: the mutable `AppState` object
becomes an explicit `AppState` structure threaded through the operations,
`localStorage`-backed `Storage.save()` becomes a persistence-write counter,
and DOM event handlers become functions from the parsed form values to the
next state.  JavaScript dates are modelled on a host in the UTC timezone as
civil `(year, month, day)` triples converted to epoch-day numbers; ECMAScript
`setMonth` day-of-month overflow (which rolls excess days into the following
month) is modelled exactly.  `String.prototype.localeCompare` is modelled as
code-point lexicographic comparison, matching the specification's stated
"ordinary lexicographic string comparison" simplification.  Operations that
can throw a `TypeError` on a null `location` (or read a missing tree node)
return `Except Unit`, with `Except.error ()` standing for the thrown
exception.
-/

namespace Inventory

/-! ## Calendar model (ECMAScript `Date` on a UTC host) -/

/-- Gregorian leap-year predicate. -/
def leapYear (y : Int) : Prop := y % 4 = 0 ∧ (y % 100 ≠ 0 ∨ y % 400 = 0)

instance (y : Int) : Decidable (leapYear y) := by unfold leapYear; infer_instance

/-- Number of days in month `m` (1-based) of year `y`. -/
def daysInMonth (y : Int) (m : Int) : Int :=
  if m = 2 then (if leapYear y then 29 else 28)
  else if m = 4 ∨ m = 6 ∨ m = 9 ∨ m = 11 then 30 else 31

/-- Days since 1970-01-01 of the civil date `y-m-d` (months 1-based).  The
formula is linear in `d`, so a `d` beyond the end of the month denotes the
correspondingly later day — exactly the normalisation ECMAScript `MakeDay`
performs for out-of-range day components. -/
def daysFromCivil (y m d : Int) : Int :=
  (if m ≤ 2 then y - 1 else y) / 400 * 146097 +
  ((if m ≤ 2 then y - 1 else y) - (if m ≤ 2 then y - 1 else y) / 400 * 400) * 365 +
  ((if m ≤ 2 then y - 1 else y) - (if m ≤ 2 then y - 1 else y) / 400 * 400) / 4 -
  ((if m ≤ 2 then y - 1 else y) - (if m ≤ 2 then y - 1 else y) / 400 * 400) / 100 +
  (153 * ((m + 9) % 12) + 2) / 5 + d - 1 - 719468

/-- Epoch day of `new Date(y, m-1, d)` after `setMonth(getMonth() + n)`:
the month index is shifted by `n` and normalised, the day component is kept
and normalised by `MakeDay` (overflow rolls into later months). -/
def addMonthsJS (y m d n : Int) : Int :=
  daysFromCivil ((y * 12 + (m - 1) + n) / 12) ((y * 12 + (m - 1) + n) % 12 + 1) d

/-- Calendar-month addition in the amended specification's words: the
day-of-month is preserved, and when it overflows the target month the excess
days carry over into the following month. -/
def addMonthsRoll (y m d n : Int) : Int :=
  let y' := (y * 12 + (m - 1) + n) / 12
  let m' := (y * 12 + (m - 1) + n) % 12 + 1
  if d ≤ daysInMonth y' m' then daysFromCivil y' m' d
  else if m' = 12 then daysFromCivil (y' + 1) 1 (d - daysInMonth y' 12)
  else daysFromCivil y' (m' + 1) (d - daysInMonth y' m')

/-- Calendar-month addition in the original claim's words: the day-of-month
is preserved unless it overflows the target month, in which case it clamps to
that month's last day. -/
def addMonthsClamp (y m d n : Int) : Int :=
  let y' := (y * 12 + (m - 1) + n) / 12
  let m' := (y * 12 + (m - 1) + n) % 12 + 1
  daysFromCivil y' m' (min d (daysInMonth y' m'))

/-- A civil date as stored in a `YYYY-MM-DD` form-field string. -/
structure Ymd where
  year : Int
  month : Int
  day : Int
deriving DecidableEq, Repr

/-- Epoch day of a stored date. -/
def toEpochDay (d : Ymd) : Int := daysFromCivil d.year d.month d.day

/-! ## Strings: code-point order and substring search -/

/-- Lexicographic code-point comparison of character lists (the model of
`localeCompare`-induced order and of JS `<=` on strings). -/
def charsLe : List Char → List Char → Bool
  | [], _ => true
  | _ :: _, [] => false
  | a :: as, b :: bs =>
    if a.toNat < b.toNat then true
    else if b.toNat < a.toNat then false
    else charsLe as bs

/-- Code-point comparison of strings. -/
def strLe (a b : String) : Bool := charsLe a.data b.data

/-- Whether `pat` is a leading sequence of `l`. -/
def startsWithL : List Char → List Char → Bool
  | [], _ => true
  | _ :: _, [] => false
  | a :: as, b :: bs => a == b && startsWithL as bs

/-- Whether `needle` occurs contiguously inside `hay`
(model of `String.prototype.includes`). -/
def occursIn (needle : List Char) : List Char → Bool
  | [] => needle.isEmpty
  | c :: rest => startsWithL needle (c :: rest) || occursIn needle rest

/-- JS `hay.includes(needle)`. -/
def jsIncludes (hay needle : String) : Bool := occursIn needle.data hay.data

/-! ## Data model (`AppState` of `src/app.js`) -/

/-- An item's `location` object: `{house, room, storage}`, each possibly the
empty string when never selected. -/
structure Location where
  house : String
  room : String
  storage : String
deriving DecidableEq, Repr

/-- An inventory item.  Form-field strings are stored parsed: empty or
absent strings become `none` (they are falsy in the source), date strings
become `Ymd`, the `shelfLife` month-count string becomes its `parseInt`
value.  `location` is `none` when the stored object is `null`/absent (legacy
or imported rows); rows created by the app itself always carry an object. -/
structure Item where
  id : String
  barcode : String
  name : String
  category : String
  quantity : Int
  isOpened : Bool
  openedDate : Option Ymd
  shelfLife : Option Int
  expiry : Option Ymd
  location : Option Location
  createdAt : Int
deriving DecidableEq, Repr

/-- The level of a node in the location tree. -/
inductive LocType where
  | house
  | room
  | storage
deriving DecidableEq, Repr

/-- The single-slot undo record `AppState.lastAction`. -/
inductive Action where
  | updateQty (id : String) (oldVal newVal : Int)
  | catRename (oldVal newVal : String) (ids : List String)
  | catDelete (name : String) (ids : List String)
  | restoreHouse (name : String) (data : List (String × List String)) (house room : String)
  | restoreRoom (name : String) (data : List String) (house room : String)
  | restoreStorage (name : String) (idx : Nat) (house room : String)
deriving DecidableEq, Repr

/-- The filter configuration `AppState.filters`. -/
structure Filters where
  house : String
  room : String
  storage : String
  category : String
  showZero : Bool
  expired : Bool
  soon : Bool
deriving DecidableEq, Repr

/-- The application state.  `struct` is the `house -> room -> storages`
tree (`locationStructure`), kept as an insertion-ordered association list
exactly as a JS object holds its string keys.  `saveCount` counts the
`Storage.save()` persistence writes performed so far. -/
structure AppState where
  items : List Item
  categories : List String
  struct : List (String × List (String × List String))
  lastAction : Option Action
  saveCount : Nat
deriving DecidableEq, Repr

/-! ## Association-list helpers (JS object key operations) -/

/-- Value stored under key `k` (JS `obj[k]`, `undefined` as `none`). -/
def lookupA {α : Type} (l : List (String × α)) (k : String) : Option α :=
  match l with
  | [] => none
  | p :: ps => if p.1 = k then some p.2 else lookupA ps k

/-- JS `obj[k] = v`: replaces the value in place when the key exists,
appends the binding otherwise. -/
def setA {α : Type} (l : List (String × α)) (k : String) (v : α) : List (String × α) :=
  if l.any (fun p => p.1 == k) then l.map (fun p => if p.1 = k then (k, v) else p)
  else l ++ [(k, v)]

/-- JS `delete obj[k]`. -/
def eraseA {α : Type} (l : List (String × α)) (k : String) : List (String × α) :=
  l.filter (fun p => p.1 ≠ k)

/-- Mutation of the first list element satisfying `p` (the object found by
`Array.prototype.find`). -/
def updateFirst {α : Type} (p : α → Bool) (f : α → α) : List α → List α
  | [] => []
  | x :: xs => if p x then f x :: xs else x :: updateFirst p f xs

/-- `Array.prototype.indexOf`, as an `Option Nat`
(JS returns `-1` for a missing element). -/
def indexOfA (a : String) : List String → Option Nat
  | [] => none
  | b :: bs => if b == a then some 0 else (indexOfA a bs).map (fun n => n + 1)

/-! ## Expiry policy (`getEffectiveExpiry`, `getDaysUntil` of `src/app.js`) -/

/-- `getEffectiveExpiry(item)` (app.js:722-735): pushes `new Date(item.expiry)`
when `item.expiry` is truthy, then — when `item.isOpened && item.openedDate &&
item.shelfLife` — the opened date with `setMonth(getMonth() + parseInt(shelfLife))`
applied, and returns `Math.min` of the collected dates, or `null` when none. -/
def getEffectiveExpiry (item : Item) : Option Int :=
  let dates : List Int :=
    (match item.expiry with
     | some e => [toEpochDay e]
     | none => []) ++
    (if item.isOpened then
      match item.openedDate, item.shelfLife with
      | some od, some sl => [addMonthsJS od.year od.month od.day sl]
      | _, _ => []
    else [])
  match dates with
  | [] => none
  | d :: ds => some (ds.foldl min d)

/-- `getDaysUntil(dateObj)` (app.js:737-742): both dates are floored to local
midnight, so `Math.ceil` of their difference in days is the exact difference
of their epoch-day numbers. -/
def getDaysUntil (today d : Int) : Int := d - today

/-! ## Query engine (`renderInventory` filter and sort, app.js:318-364) -/

/-- JS member access `location.field` on a possibly-null `location`:
throws a `TypeError` when the object is `null`. -/
def getLoc (lo : Option Location) : Except Unit Location :=
  match lo with
  | none => Except.error ()
  | some l => Except.ok l

/-- One granular location clause of the filter, e.g.
`if (AppState.filters.house && item.location.house !== AppState.filters.house) return false`:
skipped when the filter value is falsy, reads `item.location` otherwise. -/
def locClause (fv : String) (sel : Location → String) (lo : Option Location) :
    Except Unit Bool :=
  if fv = "" then Except.ok true
  else
    match getLoc lo with
    | Except.error _ => Except.error ()
    | Except.ok l => Except.ok (sel l == fv)

/-- The three granular location clauses in source order (house, room,
storage); a failing clause returns before the next one runs. -/
def locCheck (fs : Filters) (lo : Option Location) : Except Unit Bool :=
  match locClause fs.house Location.house lo with
  | Except.error _ => Except.error ()
  | Except.ok false => Except.ok false
  | Except.ok true =>
    match locClause fs.room Location.room lo with
    | Except.error _ => Except.error ()
    | Except.ok false => Except.ok false
    | Except.ok true => locClause fs.storage Location.storage lo

/-- The filter predicate of `renderInventory` (app.js:322-345).  `term` is
`searchInput.value.toLowerCase()`.  Clause order is the source's:
text search, granular location and category, zero-quantity visibility,
status filters with the missing-expiry sentinel `daysLeft = 9999`. -/
def filterItem (fs : Filters) (term : String) (today : Int) (item : Item) :
    Except Unit Bool :=
  if term ≠ "" && !(jsIncludes item.name.toLower term) && !(jsIncludes item.barcode term) then
    Except.ok false
  else
    match locCheck fs item.location with
    | Except.error _ => Except.error ()
    | Except.ok false => Except.ok false
    | Except.ok true =>
      if fs.category ≠ "" && item.category != fs.category then Except.ok false
      else if !fs.showZero && item.quantity ≤ 0 then Except.ok false
      else
        let daysLeft : Int :=
          match getEffectiveExpiry item with
          | some d => getDaysUntil today d
          | none => 9999
        if fs.expired && decide (0 ≤ daysLeft) then Except.ok false
        else if fs.soon && (decide (daysLeft < 0) || decide (30 < daysLeft)) then Except.ok false
        else Except.ok true

/-- `AppState.items.filter(...)`: left-to-right, a thrown `TypeError`
aborts the whole traversal. -/
def filterItems (fs : Filters) (term : String) (today : Int) :
    List Item → Except Unit (List Item)
  | [] => Except.ok []
  | i :: is =>
    match filterItem fs term today i with
    | Except.error _ => Except.error ()
    | Except.ok b =>
      match filterItems fs term today is with
      | Except.error _ => Except.error ()
      | Except.ok rest => Except.ok (if b then i :: rest else rest)

/-- Sort key of the `sortBy === 'location'` comparator (app.js:350-354):
the concatenation `house + room + storage`, or the literal sentinel `'zzz'`
when `location` is falsy. -/
def locKey (i : Item) : String :=
  match i.location with
  | some l => l.house ++ l.room ++ l.storage
  | none => "zzz"

/-- Boolean form of `locKey a` comparing `localeCompare`-below-or-equal
`locKey b` (code-point order). -/
def locLe (a b : Item) : Bool := strLe (locKey a) (locKey b)

/-- `filtered.sort(comparator)` for `sortBy === 'location'`:
`Array.prototype.sort` is a stable sort, whose output is uniquely determined
by the comparator, so it is modelled by stable `mergeSort`. -/
def sortInventory (l : List Item) : List Item := l.mergeSort locLe

/-! ## Item repository operations -/

/-- `window.updateQuantity(id, delta)` (app.js:592-617): finds the item,
returns before any effect when the new quantity would be negative, otherwise
writes the quantity, records the `updateQty` undo action and saves. -/
def updateQuantity (st : AppState) (id : String) (delta : Int) : AppState :=
  match st.items.find? (fun i => i.id == id) with
  | none => st
  | some item =>
    let oldQty := item.quantity
    let newQty := oldQty + delta
    if newQty < 0 then st
    else
      { st with
        items := updateFirst (fun i => i.id == id)
          (fun i => { i with quantity := newQty }) st.items,
        lastAction := some (Action.updateQty id oldQty newQty),
        saveCount := st.saveCount + 1 }

/-- Parsed values of the edit-item form (`edit-item-form`), as read in its
`onsubmit` handler.  `qty` is the `parseInt` result of the quantity field
(`none` for `NaN`). -/
structure EditInput where
  id : String
  name : String
  category : String
  qty : Option Int
  expiry : Option Ymd
  isOpened : Bool
  openedDate : Option Ymd
  shelfLife : Option Int
  house : String
  room : String
  storage : String
deriving DecidableEq, Repr

/-- JS `parseInt(x) || 0`. -/
def parsedOr0 (v : Option Int) : Int :=
  match v with
  | none => 0
  | some n => n

/-- JS `parseInt(x) || 1` (`NaN` and `0` both fall back to `1`). -/
def parsedOr1 (v : Option Int) : Int :=
  match v with
  | none => 1
  | some 0 => 1
  | some n => n

/-- The edit-form `onsubmit` handler of `setupItemDetailsUI`
(app.js:480-512): mutates the found item's fields in place, clearing
`openedDate`/`shelfLife` when `isOpened` is unchecked, then saves.
No undo action is recorded.  A missing id returns before any effect. -/
def editFormSubmit (st : AppState) (inp : EditInput) : AppState :=
  match st.items.find? (fun i => i.id == inp.id) with
  | none => st
  | some _ =>
    { st with
      items := updateFirst (fun i => i.id == inp.id)
        (fun item =>
          { item with
            name := inp.name,
            category := inp.category,
            quantity := parsedOr0 inp.qty,
            expiry := inp.expiry,
            isOpened := inp.isOpened,
            openedDate := if inp.isOpened then inp.openedDate else none,
            shelfLife := if inp.isOpened then inp.shelfLife else none,
            location := some ⟨inp.house, inp.room, inp.storage⟩ }) st.items,
      saveCount := st.saveCount + 1 }

/-- Parsed values of the add-item form (`add-item-form`).  `name` and
`barcode` are already trimmed; `category`, `house`, `room`, `storage` are
the select values (empty string when unselected). -/
structure AddInput where
  barcode : String
  name : String
  category : String
  qty : Option Int
  isOpened : Bool
  openedDate : Option Ymd
  shelfLife : Option Int
  expiry : Option Ymd
  house : String
  room : String
  storage : String
deriving DecidableEq, Repr

/-- The merge-target search
`AppState.items.find(i => key(i) && i.location.house === ... && ...)`:
short-circuit means `i.location` is only read once `key i` holds, throwing
on a null location there. -/
def findMergeTarget (key : Item → Bool) (loc : Location) :
    List Item → Except Unit (Option Item)
  | [] => Except.ok none
  | i :: is =>
    if key i then
      match i.location with
      | none => Except.error ()
      | some l => if l = loc then Except.ok (some i) else findMergeTarget key loc is
    else findMergeTarget key loc is

/-- The add-item form submit handler of `setupForm` (app.js:833-905):
rejects an empty name, otherwise merges into an existing item with the same
barcode (or, with no barcode, the same name) and identical location triple,
or appends a fresh item with `id = Date.now().toString()`, then saves. -/
def addFormSubmit (st : AppState) (inp : AddInput) (now : Int) :
    Except Unit AppState :=
  if inp.name = "" then Except.ok st
  else
    let cat := if inp.category = "" then "Uncategorized" else inp.category
    let loc : Location := ⟨inp.house, inp.room, inp.storage⟩
    let qty : Int := parsedOr1 inp.qty
    let key : Item → Bool :=
      if inp.barcode ≠ "" then (fun i => i.barcode == inp.barcode)
      else (fun i => i.name == inp.name)
    match findMergeTarget key loc st.items with
    | Except.error _ => Except.error ()
    | Except.ok (some _) =>
      Except.ok { st with
        items := updateFirst (fun i => key i && i.location == some loc)
          (fun i => { i with quantity := i.quantity + qty }) st.items,
        saveCount := st.saveCount + 1 }
    | Except.ok none =>
      Except.ok { st with
        items := st.items ++ [{
          id := toString now,
          barcode := inp.barcode,
          name := inp.name,
          category := cat,
          quantity := qty,
          isOpened := inp.isOpened,
          openedDate := if inp.isOpened then inp.openedDate else none,
          shelfLife := if inp.isOpened then inp.shelfLife else none,
          expiry := inp.expiry,
          location := some loc,
          createdAt := now }],
        saveCount := st.saveCount + 1 }

/-! ## Category management (`renderCategorySettings` handlers) -/

/-- `setCategoryById`: one pass of
`affectedIds.forEach(id => { const item = items.find(i => i.id === id); if (item) item.category = c; })`. -/
def setCategoryById (items : List Item) (id : String) (newCat : String) : List Item :=
  updateFirst (fun i => i.id == id) (fun i => { i with category := newCat }) items

/-- The `del-cat-btn` click handler (app.js:1071-1093): captures the ids of
items in the category, removes the category from the list, reassigns those
items to `"Uncategorized"`, records the `catDelete` undo action and saves. -/
def deleteCategory (st : AppState) (cat : String) : AppState :=
  let affectedIds := (st.items.filter (fun i => i.category == cat)).map (fun i => i.id)
  { st with
    categories := st.categories.filter (fun c => c ≠ cat),
    items := affectedIds.foldl (fun acc id => setCategoryById acc id "Uncategorized") st.items,
    lastAction := some (Action.catDelete cat affectedIds),
    saveCount := st.saveCount + 1 }

/-! ## Undo (`performUndo`) -/

/-- The effective `performUndo` (app.js:1424-1463).  The source declares
`performUndo` twice at top level; by JS function-declaration hoisting the
later declaration (line 1424) shadows the earlier one (line 644) for every
caller.  The later declaration restores only `updateQty`, `restoreHouse`,
`restoreRoom` and `restoreStorage` actions — `catRename` and `catDelete`
fall through with no restoration — then saves and clears the slot. -/
def performUndo (st : AppState) : AppState :=
  match st.lastAction with
  | none => st
  | some act =>
    let st' :=
      match act with
      | Action.updateQty id oldVal _ =>
        { st with items :=
            updateFirst (fun i => i.id == id) (fun i => { i with quantity := oldVal }) st.items }
      | Action.restoreHouse name data _ _ =>
        { st with struct := setA st.struct name data }
      | Action.restoreRoom name data house _ =>
        match lookupA st.struct house with
        | some rooms => { st with struct := setA st.struct house (setA rooms name data) }
        | none => st
      | Action.restoreStorage name idx house room =>
        match lookupA st.struct house with
        | some rooms =>
          match lookupA rooms room with
          | some arr =>
            { st with struct := setA st.struct house (setA rooms room (arr.insertIdx idx name)) }
          | none => st
        | none => st
      | _ => st
    { st' with saveCount := st'.saveCount + 1, lastAction := none }

/-! ## Location tree CRUD (`renameLocation`, `deleteLocation`) -/

/-- The dependent-item check inside `deleteLocation` (app.js:1363-1371):
`hasItems(h, r, s)` with the falsy arguments (`undefined` or `''`) skipping
their clause; a null `item.location` is defaulted to `{}` whose fields match
nothing. -/
def hasItems (items : List Item) (h r s : String) : Bool :=
  items.any fun i =>
    match i.location with
    | none => false
    | some l => l.house == h && (r == "" || l.room == r) && (s == "" || l.storage == s)

/-- `window.deleteLocation(type, name, pHouse, pRoom)` (app.js:1359-1422):
blocks (alert, early return, no mutation at all) when dependent items exist;
otherwise snapshots the subtree, deletes the node, saves and records the
matching restore action.  Reading a missing tree node throws
(`TypeError` on a missing parent, `JSON.parse(undefined)` on a missing
node), modelled as `Except.error`.  A storage name absent from its room's
array returns with no effect. -/
def deleteLocation (st : AppState) (ty : LocType) (name pHouse pRoom : String) :
    Except Unit AppState :=
  match ty with
  | LocType.house =>
    if hasItems st.items name "" "" then Except.ok st
    else
      match lookupA st.struct name with
      | none => Except.error ()
      | some rooms =>
        Except.ok { st with
          struct := eraseA st.struct name,
          lastAction := some (Action.restoreHouse name rooms pHouse pRoom),
          saveCount := st.saveCount + 1 }
  | LocType.room =>
    if hasItems st.items pHouse name "" then Except.ok st
    else
      match lookupA st.struct pHouse with
      | none => Except.error ()
      | some rooms =>
        match lookupA rooms name with
        | none => Except.error ()
        | some storages =>
          Except.ok { st with
            struct := setA st.struct pHouse (eraseA rooms name),
            lastAction := some (Action.restoreRoom name storages pHouse pRoom),
            saveCount := st.saveCount + 1 }
  | LocType.storage =>
    if hasItems st.items pHouse pRoom name then Except.ok st
    else
      match lookupA st.struct pHouse with
      | none => Except.error ()
      | some rooms =>
        match lookupA rooms pRoom with
        | none => Except.error ()
        | some arr =>
          match indexOfA name arr with
          | none => Except.ok st
          | some idx =>
            Except.ok { st with
              struct := setA st.struct pHouse (setA rooms pRoom (arr.eraseIdx idx)),
              lastAction := some (Action.restoreStorage name idx pHouse pRoom),
              saveCount := st.saveCount + 1 }

/-- `window.renameLocation(type, oldName, pHouse, pRoom)` (app.js:1328-1357)
with the prompt result `newName`: returns unchanged when `newName` is falsy
or equals `oldName`; otherwise rewrites the tree entry — with **no** check
whether `newName` already exists, so an existing house/room of that name is
overwritten and an existing storage name is duplicated — and updates every
item referencing the old name at that level under the same ancestors.
Reading a missing node throws, modelled as `Except.error` (the source would
instead write an `undefined`-valued key; no claim exercises that case).
No undo action is recorded. -/
def renameLocation (st : AppState) (ty : LocType) (oldName newName pHouse pRoom : String) :
    Except Unit AppState :=
  if newName = "" ∨ newName = oldName then Except.ok st
  else
    match ty with
    | LocType.house =>
      match lookupA st.struct oldName with
      | none => Except.error ()
      | some rooms =>
        Except.ok { st with
          struct := eraseA (setA st.struct newName rooms) oldName,
          items := st.items.map (fun i =>
            match i.location with
            | some l =>
              if l.house == oldName then { i with location := some { l with house := newName } }
              else i
            | none => i),
          saveCount := st.saveCount + 1 }
    | LocType.room =>
      match lookupA st.struct pHouse with
      | none => Except.error ()
      | some rooms =>
        match lookupA rooms oldName with
        | none => Except.error ()
        | some storages =>
          Except.ok { st with
            struct := setA st.struct pHouse (eraseA (setA rooms newName storages) oldName),
            items := st.items.map (fun i =>
              match i.location with
              | some l =>
                if l.house == pHouse && l.room == oldName then
                  { i with location := some { l with room := newName } }
                else i
              | none => i),
            saveCount := st.saveCount + 1 }
    | LocType.storage =>
      match lookupA st.struct pHouse with
      | none => Except.error ()
      | some rooms =>
        match lookupA rooms pRoom with
        | none => Except.error ()
        | some arr =>
          let arr' :=
            match indexOfA oldName arr with
            | some idx => arr.set idx newName
            | none => arr
          Except.ok { st with
            struct := setA st.struct pHouse (setA rooms pRoom arr'),
            items := st.items.map (fun i =>
              match i.location with
              | some l =>
                if l.house == pHouse && l.room == pRoom && l.storage == oldName then
                  { i with location := some { l with storage := newName } }
                else i
              | none => i),
            saveCount := st.saveCount + 1 }

/-! ## Specification-side definitions

These follow the wording of the specification (or of an amended claim) and
are compared with the source-derived operations above. -/

/-- Effective expiry in the original claim's words: the earliest of the
explicit expiry and — when `isOpened` and both opened fields are present —
the opened date plus the shelf-life months with day-of-month **clamped** to
the target month's last day on overflow; `none` without candidates. -/
def specEffectiveExpiryClaim (item : Item) : Option Int :=
  let explicitC : Option Int := item.expiry.map toEpochDay
  let openedC : Option Int :=
    if item.isOpened then
      match item.openedDate, item.shelfLife with
      | some od, some sl => some (addMonthsClamp od.year od.month od.day sl)
      | _, _ => none
    else none
  match explicitC, openedC with
  | none, none => none
  | some a, none => some a
  | none, some b => some b
  | some a, some b => some (min a b)

/-- Effective expiry in the amended claim's words: as above, but the
day-of-month overflow **carries over** into the following month
(ECMAScript `setMonth` normalisation) instead of clamping. -/
def specEffectiveExpiryRoll (item : Item) : Option Int :=
  let explicitC : Option Int := item.expiry.map toEpochDay
  let openedC : Option Int :=
    if item.isOpened then
      match item.openedDate, item.shelfLife with
      | some od, some sl => some (addMonthsRoll od.year od.month od.day sl)
      | _, _ => none
    else none
  match explicitC, openedC with
  | none, none => none
  | some a, none => some a
  | none, some b => some b
  | some a, some b => some (min a b)

/-- The quantity invariant: every item's quantity is non-negative. -/
def allNonneg (st : AppState) : Prop := ∀ i ∈ st.items, 0 ≤ i.quantity

instance (st : AppState) : Decidable (allNonneg st) := by unfold allNonneg; infer_instance

/-- Whether an item sits at or below the given tree node: its location path
agrees with the node's name and ancestors at that level. -/
def itemAtOrBelow (ty : LocType) (name ph pr : String) (i : Item) : Bool :=
  match i.location with
  | none => false
  | some l =>
    match ty with
    | LocType.house => l.house == name
    | LocType.room => l.house == ph && l.room == name
    | LocType.storage => l.house == ph && l.room == pr && l.storage == name

/-- Whether the named node is present in the location tree. -/
def nodeExists (struct : List (String × List (String × List String)))
    (ty : LocType) (name ph pr : String) : Bool :=
  match ty with
  | LocType.house => (lookupA struct name).isSome
  | LocType.room =>
    match lookupA struct ph with
    | some rooms => (lookupA rooms name).isSome
    | none => false
  | LocType.storage =>
    match lookupA struct ph with
    | some rooms =>
      match lookupA rooms pr with
      | some arr => arr.contains name
      | none => false
    | none => false

/-- Well-formedness of the tree used by the claims about node deletion:
every room's storage array is duplicate-free (the app's own `addStorage`
path guards with `includes` before pushing). -/
def storagesNodup (struct : List (String × List (String × List String))) : Bool :=
  struct.all (fun p => p.2.all (fun q => decide q.2.Nodup))

/-- The cascade of a node rename over one item, in the claim's words: an
item referencing the old name at that level under the same ancestors is
updated to the new name, any other item is untouched. -/
def cascadeRename (ty : LocType) (oldName newName ph pr : String) (i : Item) : Item :=
  match i.location with
  | none => i
  | some l =>
    match ty with
    | LocType.house =>
      if l.house == oldName then { i with location := some { l with house := newName } } else i
    | LocType.room =>
      if l.house == ph && l.room == oldName then
        { i with location := some { l with room := newName } }
      else i
    | LocType.storage =>
      if l.house == ph && l.room == pr && l.storage == oldName then
        { i with location := some { l with storage := newName } }
      else i

/-! ## Calendar lemmas -/

/-- The civil-day formula is linear in the day component. -/
theorem daysFromCivil_day (y m d : Int) : daysFromCivil y m d = daysFromCivil y m 1 + d - 1 := by
  simp only [daysFromCivil]; omega

/-- The first day of the following month is one month-length after the
first day of a month. -/
theorem daysFromCivil_next (y m : Int) (h1 : 1 ≤ m) (h2 : m ≤ 12) :
    daysFromCivil y m 1 + daysInMonth y m =
    daysFromCivil (if m = 12 then y + 1 else y) (if m = 12 then 1 else m + 1) 1 := by
  interval_cases m <;> simp only [daysFromCivil, daysInMonth, leapYear] <;> norm_num <;> omega

/-- ECMAScript `setMonth` month addition agrees with the carry-over
description of calendar-month addition. -/
theorem addMonths_eq (y m d n : Int) : addMonthsJS y m d n = addMonthsRoll y m d n := by
  unfold addMonthsJS addMonthsRoll
  set y' := (y * 12 + (m - 1) + n) / 12 with hy'
  set m' := (y * 12 + (m - 1) + n) % 12 + 1 with hm'
  have hm1 : 1 ≤ m' := by omega
  have hm2 : m' ≤ 12 := by omega
  by_cases hle : d ≤ daysInMonth y' m'
  · simp [hle]
  · rw [if_neg hle]
    have hnext := daysFromCivil_next y' m' hm1 hm2
    by_cases h12 : m' = 12
    · rw [if_pos h12]
      rw [daysFromCivil_day y' m' d, daysFromCivil_day (y' + 1) 1 (d - daysInMonth y' 12)]
      rw [h12] at hnext ⊢
      norm_num at hnext
      omega
    · rw [if_neg h12]
      rw [daysFromCivil_day y' m' d, daysFromCivil_day y' (m' + 1) (d - daysInMonth y' m')]
      rw [if_neg h12, if_neg h12] at hnext
      omega

/-! ## String-order lemmas -/

/-- Transitivity of the code-point order. -/
theorem charsLe_trans : ∀ x y z, charsLe x y = true → charsLe y z = true → charsLe x z = true := by
  intro x
  induction x with
  | nil => intro y z _ _; rfl
  | cons a as ih =>
    intro y z hxy hyz
    cases y with
    | nil => simp [charsLe] at hxy
    | cons b bs =>
      cases z with
      | nil => simp [charsLe] at hyz
      | cons c cs =>
        simp only [charsLe] at hxy hyz ⊢
        split_ifs at hxy hyz ⊢ <;>
          first | rfl | (exact ih bs cs hxy hyz) | omega

/-- Reflexivity of the code-point order. -/
theorem charsLe_refl : ∀ x, charsLe x x = true := by
  intro x
  induction x with
  | nil => rfl
  | cons c cs ih => simp [charsLe, ih]

/-- Totality of the code-point order. -/
theorem charsLe_total : ∀ x y, (charsLe x y || charsLe y x) = true := by
  intro x
  induction x with
  | nil => intro y; simp [charsLe]
  | cons a as ih =>
    intro y
    cases y with
    | nil => simp [charsLe]
    | cons b bs =>
      simp only [charsLe]
      by_cases h1 : a.toNat < b.toNat
      · simp [h1]
      · by_cases h2 : b.toNat < a.toNat
        · simp [h1, h2]
        · simp [h1, h2, ih bs]

/-- Transitivity of the location-key comparator. -/
theorem locLe_trans (a b c : Item) :
    locLe a b = true → locLe b c = true → locLe a c = true :=
  charsLe_trans _ _ _

/-- Totality of the location-key comparator. -/
theorem locLe_total (a b : Item) : (locLe a b || locLe b a) = true :=
  charsLe_total _ _

/-! ## Association-list lemmas -/

/-- A successful lookup names a binding of the list. -/
theorem lookupA_mem {α : Type} :
    ∀ (l : List (String × α)) (k : String) (v : α), lookupA l k = some v → (k, v) ∈ l := by
  intro l
  induction l with
  | nil => intro k v h; simp [lookupA] at h
  | cons p ps ih =>
    intro k v h
    simp only [lookupA] at h
    by_cases hp : p.1 = k
    · rw [if_pos hp] at h
      have hpv : p = (k, v) := by
        cases p
        simp only [Option.some.injEq] at h
        simp_all
      rw [← hpv]
      exact List.mem_cons_self _ _
    · rw [if_neg hp] at h
      exact List.mem_cons_of_mem _ (ih k v h)

/-- Setting a key then looking it up yields the written value. -/
theorem lookupA_setA_self {α : Type} (l : List (String × α)) (k : String) (v : α) :
    lookupA (setA l k v) k = some v := by
  unfold setA
  by_cases h : l.any (fun p => p.1 == k) = true
  · rw [if_pos h]
    induction l with
    | nil => simp at h
    | cons p ps ih =>
      simp only [List.map_cons, lookupA]
      by_cases hp : p.1 = k
      · simp [hp]
      · have hps : ps.any (fun p => p.1 == k) = true := by
          simp only [List.any_cons, Bool.or_eq_true, beq_iff_eq] at h
          rcases h with h1 | h2
          · exact absurd h1 hp
          · exact h2
        simp only [if_neg hp]
        exact ih hps
  · rw [if_neg h]
    have hnone : ∀ p ∈ l, p.1 ≠ k := by
      intro p hp hk
      exact h (List.any_eq_true.mpr ⟨p, hp, by simp [hk]⟩)
    induction l with
    | nil => simp [lookupA]
    | cons p ps ih =>
      simp only [List.cons_append, lookupA]
      rw [if_neg (hnone p (by simp))]
      exact ih (by simp [List.any_cons] at h ⊢; exact h.2) (fun q hq => hnone q (by simp [hq]))

/-- Mapping the in-place overwrite of key `k` leaves other lookups
unchanged. -/
theorem lookupA_mapset_ne {α : Type} (k k' : String) (v : α) (hne : k' ≠ k) :
    ∀ l : List (String × α),
      lookupA (l.map (fun p => if p.1 = k then (k, v) else p)) k' = lookupA l k' := by
  intro l
  induction l with
  | nil => rfl
  | cons p ps ih =>
    simp only [List.map_cons, lookupA]
    by_cases hp : p.1 = k
    · rw [if_pos hp]
      simp only [lookupA]
      rw [if_neg (fun h => hne h.symm), if_neg (by rw [hp]; exact fun h => hne h.symm)]
      exact ih
    · rw [if_neg hp]
      by_cases hp' : p.1 = k'
      · simp [hp']
      · rw [if_neg hp', if_neg hp']
        exact ih

/-- Appending a binding for key `k` leaves other lookups unchanged. -/
theorem lookupA_append_ne {α : Type} (k k' : String) (v : α) (hne : k' ≠ k) :
    ∀ l : List (String × α), lookupA (l ++ [(k, v)]) k' = lookupA l k' := by
  intro l
  induction l with
  | nil =>
    show (if k = k' then some v else lookupA [] k') = lookupA [] k'
    rw [if_neg (fun h => hne h.symm)]
  | cons p ps ih =>
    simp only [List.cons_append, lookupA]
    by_cases hp : p.1 = k'
    · simp [hp]
    · rw [if_neg hp, if_neg hp]
      exact ih

/-- Setting one key leaves lookups of other keys unchanged. -/
theorem lookupA_setA_ne {α : Type} (l : List (String × α)) (k k' : String) (v : α)
    (hne : k' ≠ k) : lookupA (setA l k v) k' = lookupA l k' := by
  unfold setA
  split
  · exact lookupA_mapset_ne k k' v hne l
  · exact lookupA_append_ne k k' v hne l

/-- Deleting a key removes it. -/
theorem lookupA_eraseA_self {α : Type} (l : List (String × α)) (k : String) :
    lookupA (eraseA l k) k = none := by
  unfold eraseA
  induction l with
  | nil => simp [lookupA]
  | cons p ps ih =>
    by_cases hp : p.1 = k
    · simp only [List.filter_cons]
      rw [if_neg (by simp [hp])]
      exact ih
    · simp only [List.filter_cons]
      rw [if_pos (by simp [hp])]
      simp only [lookupA, if_neg hp]
      exact ih

/-- Deleting one key leaves lookups of other keys unchanged. -/
theorem lookupA_eraseA_ne {α : Type} (l : List (String × α)) (k k' : String)
    (hne : k ≠ k') : lookupA (eraseA l k') k = lookupA l k := by
  unfold eraseA
  induction l with
  | nil => simp
  | cons p ps ih =>
    by_cases hp : p.1 = k'
    · simp only [List.filter_cons]
      rw [if_neg (by simp [hp])]
      rw [ih]
      simp only [lookupA]
      rw [if_neg (by rw [hp]; exact fun h => hne h.symm)]
    · simp only [List.filter_cons]
      rw [if_pos (by simp [hp])]
      simp only [lookupA]
      by_cases hk : p.1 = k
      · simp [hk]
      · rw [if_neg hk, if_neg hk]
        exact ih

/-! ## `updateFirst` and `indexOfA` lemmas -/

/-- Every element of an `updateFirst` result is an original element or the
image of an original element that satisfied the predicate. -/
theorem mem_updateFirst {α : Type} (p : α → Bool) (f : α → α) :
    ∀ (l : List α) (x : α), x ∈ updateFirst p f l →
      x ∈ l ∨ ∃ y, y ∈ l ∧ p y = true ∧ x = f y := by
  intro l
  induction l with
  | nil => intro x hx; simp [updateFirst] at hx
  | cons a as ih =>
    intro x hx
    simp only [updateFirst] at hx
    by_cases ha : p a = true
    · rw [if_pos ha] at hx
      rcases List.mem_cons.mp hx with h | h
      · exact Or.inr ⟨a, by simp, ha, h⟩
      · exact Or.inl (List.mem_cons_of_mem _ h)
    · rw [if_neg ha] at hx
      rcases List.mem_cons.mp hx with h | h
      · exact Or.inl (by simp [h])
      · rcases ih x h with h' | ⟨y, hy, hpy, hxy⟩
        · exact Or.inl (List.mem_cons_of_mem _ h')
        · exact Or.inr ⟨y, List.mem_cons_of_mem _ hy, hpy, hxy⟩

/-- With duplicate-free ids, an element of the updated list carrying the
targeted id is the image of the unique original element with that id. -/
theorem updateFirst_nodup_id (id : String) (f : Item → Item) :
    ∀ (l : List Item), (l.map (fun i => i.id)).Nodup →
      ∀ x ∈ updateFirst (fun i => i.id == id) f l, x.id = id →
        ∃ y, y ∈ l ∧ y.id = id ∧ x = f y := by
  intro l
  induction l with
  | nil => intro _ x hx; simp [updateFirst] at hx
  | cons a as ih =>
    intro hnd x hx hxid
    simp only [List.map_cons, List.nodup_cons] at hnd
    simp only [updateFirst] at hx
    by_cases ha : (a.id == id) = true
    · rw [if_pos ha] at hx
      rcases List.mem_cons.mp hx with h | h
      · exact ⟨a, by simp, by simpa using ha, h⟩
      · exfalso
        have : a.id ∈ as.map (fun i => i.id) := by
          rw [beq_iff_eq.mp ha, ← hxid]
          exact List.mem_map.mpr ⟨x, h, rfl⟩
        exact hnd.1 this
    · rw [if_neg ha] at hx
      rcases List.mem_cons.mp hx with h | h
      · exfalso
        rw [h] at hxid
        exact ha (by simp [hxid])
      · rcases ih hnd.2 x h hxid with ⟨y, hy, hyid, hxy⟩
        exact ⟨y, List.mem_cons_of_mem _ hy, hyid, hxy⟩

/-- A present element has an index. -/
theorem indexOfA_of_mem (a : String) :
    ∀ l : List String, a ∈ l → ∃ j, indexOfA a l = some j := by
  intro l
  induction l with
  | nil => intro h; simp at h
  | cons b bs ih =>
    intro h
    simp only [indexOfA]
    by_cases hb : (b == a) = true
    · exact ⟨0, by rw [if_pos hb]⟩
    · rcases List.mem_cons.mp h with h' | h'
      · exact absurd (by simp [h']) hb
      · rcases ih h' with ⟨j, hj⟩
        exact ⟨j + 1, by rw [if_neg hb, hj]; rfl⟩

/-- Removing the indexed occurrence of `a` from a duplicate-free list
removes `a` entirely. -/
theorem not_mem_eraseIdx_indexOfA (a : String) :
    ∀ (l : List String) (idx : Nat), l.Nodup → indexOfA a l = some idx →
      a ∉ l.eraseIdx idx := by
  intro l
  induction l with
  | nil => intro idx _ h; simp [indexOfA] at h
  | cons b bs ih =>
    intro idx hnd h
    simp only [indexOfA] at h
    rcases List.nodup_cons.mp hnd with ⟨hb, hbs⟩
    by_cases hba : (b == a) = true
    · rw [if_pos hba] at h
      cases h
      simp only [List.eraseIdx]
      rw [← beq_iff_eq.mp hba]
      exact hb
    · rw [if_neg hba] at h
      cases hidx : indexOfA a bs with
      | none => rw [hidx] at h; simp at h
      | some j =>
        rw [hidx] at h
        have hj : j + 1 = idx := by simpa using h
        cases hj
        simp only [List.eraseIdx]
        intro hmem
        rcases List.mem_cons.mp hmem with h' | h'
        · exact hba (by simp [h'.symm])
        · exact ih j hbs hidx h'

/-- The storage-array well-formedness flag applies to every array the
lookups reach. -/
theorem storagesNodup_spec {struct : List (String × List (String × List String))}
    {h r : String} {rooms : List (String × List String)} {arr : List String}
    (hwf : storagesNodup struct = true)
    (hh : lookupA struct h = some rooms) (hr : lookupA rooms r = some arr) :
    arr.Nodup := by
  have h1 := List.all_eq_true.mp hwf _ (lookupA_mem _ _ _ hh)
  have h2 := List.all_eq_true.mp h1 _ (lookupA_mem _ _ _ hr)
  exact of_decide_eq_true h2

/-! ## Operation lemmas -/

/-- A quantity adjustment that would drive the quantity below zero is a
complete no-op: the state — items, pending undo record and persistence-write
count included — is returned unchanged. -/
theorem updateQuantity_rejected (st : AppState) (id : String) (delta : Int) (item : Item)
    (hfind : st.items.find? (fun i => i.id == id) = some item)
    (hneg : item.quantity + delta < 0) :
    updateQuantity st id delta = st := by
  unfold updateQuantity
  rw [hfind]
  simp only []
  rw [if_pos hneg]

/-! ## Test fixtures for witnesses and counterexamples -/

/-- A closed item with the given id, quantity and location and all other
fields inert. -/
def mkItem (id : String) (qty : Int) (loc : Option Location) : Item :=
  { id := id, barcode := "", name := "Item" ++ id, category := "General",
    quantity := qty, isOpened := false, openedDate := none, shelfLife := none,
    expiry := none, location := loc, createdAt := 0 }

/-- A closed state holding the given items and location tree. -/
def mkState (items : List Item)
    (struct : List (String × List (String × List String))) : AppState :=
  { items := items, categories := ["Food", "Facial", "General", "Medicine", "Stationery"],
    struct := struct, lastAction := none, saveCount := 0 }

/-! ## Claim C2 -/

/-- Fixture: a state holding one item of quantity 5. -/
def stC2 : AppState := mkState [mkItem "1" 5 (some ⟨"", "", ""⟩)] []

/-- C2, as stated, is false: `adjustQuantity(id, -(q+1))` does not leave the
quantity at 0.  On an item of quantity 5 the call `updateQuantity "1" (-(5+1))`
leaves the quantity at 5 — the decrement is rejected as a silent no-op, it is
not clamped to 0. -/
theorem claim_C2_counterexample :
    (updateQuantity stC2 "1" (-(5 + 1))).items.map (fun i => i.quantity) ≠ [0] ∧
    (updateQuantity stC2 "1" (-(5 + 1))).items.map (fun i => i.quantity) = [5] ∧
    updateQuantity stC2 "1" (-(5 + 1)) = stC2 := by
  refine ⟨by decide, by decide, by decide⟩

/-- C2 (amended): for every item with quantity `q`, `adjustQuantity(id, -(q+1))`
is a rejected silent no-op that leaves the item's quantity unchanged at `q` —
never negative, but equal to 0 only when `q` was already 0. -/
theorem claim_C2_amended (st : AppState) (id : String) (item : Item)
    (hfind : st.items.find? (fun i => i.id == id) = some item) :
    updateQuantity st id (-(item.quantity + 1)) = st :=
  updateQuantity_rejected st id (-(item.quantity + 1)) item hfind (by omega)

/-- Witness for C2 (amended) at the quantity-5 fixture. -/
theorem claim_C2_witness : updateQuantity stC2 "1" (-(5 + 1)) = stC2 := by
  have h := claim_C2_amended stC2 "1" (mkItem "1" 5 (some ⟨"", "", ""⟩)) (by decide)
  simpa using h

/-! ## Claim C9 -/

/-- Fixture: a state with one item of quantity 3, a pending undo record and
7 persistence writes performed. -/
def stC9 : AppState :=
  { mkState [mkItem "9" 3 (some ⟨"", "", ""⟩)] [] with
    lastAction := some (Action.catDelete "Medicine" ["9"]),
    saveCount := 7 }

/-- C9: a rejected quantity adjustment (`quantity + delta < 0`) is a complete
no-op beyond the quantity itself: the whole state is returned unchanged, so
the pending undo record is not overwritten and no persistence write occurs. -/
theorem claim_C9 (st : AppState) (id : String) (delta : Int) (item : Item)
    (hfind : st.items.find? (fun i => i.id == id) = some item)
    (hneg : item.quantity + delta < 0) :
    updateQuantity st id delta = st :=
  updateQuantity_rejected st id delta item hfind hneg

/-- Witness for C9: rejecting `delta = -10` on the quantity-3 item preserves
the state, its pending `catDelete` undo record included. -/
theorem claim_C9_witness :
    updateQuantity stC9 "9" (-10) = stC9 ∧
    (updateQuantity stC9 "9" (-10)).lastAction = some (Action.catDelete "Medicine" ["9"]) ∧
    (updateQuantity stC9 "9" (-10)).saveCount = 7 := by
  have h := claim_C9 stC9 "9" (-10) (mkItem "9" 3 (some ⟨"", "", ""⟩)) (by decide) (by decide)
  exact ⟨h, by rw [h]; rfl, by rw [h]; rfl⟩

/-! ## Claim C1 -/

/-- Fixture: a state holding one item of quantity 2. -/
def stC1 : AppState := mkState [mkItem "1" 2 (some ⟨"", "", ""⟩)] []

/-- Fixture: an edit-form submission whose quantity field parsed to `-3`. -/
def edC1 : EditInput :=
  { id := "1", name := "ItemX", category := "General", qty := some (-3), expiry := none,
    isOpened := false, openedDate := none, shelfLife := none,
    house := "", room := "", storage := "" }

/-- C1, as stated, is false: the edit-form update writes
`parseInt(edit-qty) || 0` with no lower bound, so submitting the edit form
with quantity `-3` drives the item's quantity negative. -/
theorem claim_C1_counterexample :
    allNonneg stC1 ∧
    (editFormSubmit stC1 edC1).items.map (fun i => i.quantity) = [-3] ∧
    ¬ allNonneg (editFormSubmit stC1 edC1) := by
  refine ⟨by decide, by decide, by decide⟩

/-- C1 (amended): `adjustQuantity` can never drive a quantity negative, and
the add form (merge-on-add or fresh insert) and the edit form preserve
non-negativity of every quantity provided the parsed quantity value they are
given is non-negative. -/
theorem claim_C1_amended :
    (∀ (st : AppState) (id : String) (delta : Int),
      allNonneg st → allNonneg (updateQuantity st id delta))
    ∧ (∀ (st : AppState) (inp : EditInput),
      allNonneg st → 0 ≤ parsedOr0 inp.qty → allNonneg (editFormSubmit st inp))
    ∧ (∀ (st : AppState) (inp : AddInput) (now : Int) (st' : AppState),
      allNonneg st → 0 ≤ parsedOr1 inp.qty → addFormSubmit st inp now = Except.ok st' →
      allNonneg st') := by
  refine ⟨?_, ?_, ?_⟩
  · intro st id delta h
    unfold updateQuantity
    cases hf : st.items.find? (fun i => i.id == id) with
    | none => exact h
    | some item =>
      simp only []
      split
      · exact h
      · rename_i hge
        intro i hi
        simp only [] at hi
        rcases mem_updateFirst _ _ st.items i hi with hmem | ⟨y, hy, _, hxy⟩
        · exact h i hmem
        · rw [hxy]
          simp only []
          omega
  · intro st inp h hq
    unfold editFormSubmit
    cases hf : st.items.find? (fun i => i.id == inp.id) with
    | none => exact h
    | some item =>
      intro i hi
      simp only [] at hi
      rcases mem_updateFirst _ _ st.items i hi with hmem | ⟨y, hy, _, hxy⟩
      · exact h i hmem
      · rw [hxy]
        exact hq
  · intro st inp now st' h hq hok
    unfold addFormSubmit at hok
    by_cases hname : inp.name = ""
    · rw [if_pos hname] at hok
      cases hok
      exact h
    · rw [if_neg hname] at hok
      simp only [] at hok
      cases hm : findMergeTarget
          (if inp.barcode ≠ "" then (fun i => i.barcode == inp.barcode)
           else (fun i => i.name == inp.name))
          ⟨inp.house, inp.room, inp.storage⟩ st.items with
      | error e => rw [hm] at hok; cases hok
      | ok o =>
        rw [hm] at hok
        cases o with
        | some it =>
          simp only [] at hok
          cases hok
          intro i hi
          simp only [] at hi
          rcases mem_updateFirst _ _ st.items i hi with hmem | ⟨y, hy, _, hxy⟩
          · exact h i hmem
          · rw [hxy]
            simp only []
            have := h y hy
            omega
        | none =>
          simp only [] at hok
          cases hok
          intro i hi
          simp only [] at hi
          rcases List.mem_append.mp hi with hmem | hnew
          · exact h i hmem
          · simp only [List.mem_singleton] at hnew
            rw [hnew]
            exact hq

/-- Fixture: a two-item state with non-negative quantities. -/
def stC1w : AppState := mkState [mkItem "1" 2 (some ⟨"", "", ""⟩), mkItem "2" 0 none] []

/-- Fixture: an edit submission with a non-negative parsed quantity. -/
def edC1w : EditInput := { edC1 with qty := some 4 }

/-- Fixture: an add-form submission of two units of a fresh item. -/
def adC1w : AddInput :=
  { barcode := "", name := "New", category := "", qty := some 2, isOpened := false,
    openedDate := none, shelfLife := none, expiry := none,
    house := "", room := "", storage := "" }

/-- The state `addFormSubmit stC1w adC1w 77` produces. -/
def stC1w' : AppState :=
  { stC1w with
    items := stC1w.items ++ [{
      id := "77", barcode := "", name := "New", category := "Uncategorized",
      quantity := 2, isOpened := false, openedDate := none, shelfLife := none,
      expiry := none, location := some ⟨"", "", ""⟩, createdAt := 77 }],
    saveCount := 1 }

/-- Witness for C1 (amended) at concrete states: a decrement, a non-negative
edit and a fresh add all keep every quantity non-negative. -/
theorem claim_C1_witness :
    allNonneg (updateQuantity stC1w "1" (-2)) ∧
    allNonneg (editFormSubmit stC1w edC1w) ∧
    (addFormSubmit stC1w adC1w 77 = Except.ok stC1w' ∧ allNonneg stC1w') :=
  ⟨claim_C1_amended.1 stC1w "1" (-2) (by decide),
   claim_C1_amended.2.1 stC1w edC1w (by decide) (by decide),
   rfl,
   claim_C1_amended.2.2 stC1w adC1w 77 stC1w' (by decide) (by decide) rfl⟩

/-! ## Claim C7 -/

/-- C7: after any edit-form update that unchecks `isOpened`, the updated
item's `openedDate` and `shelfLife` are cleared to null, not left stale.
Stated for states with duplicate-free item ids (ids are specified unique). -/
theorem claim_C7 (st : AppState) (inp : EditInput)
    (hnd : (st.items.map (fun i => i.id)).Nodup)
    (hopen : inp.isOpened = false) :
    ∀ i ∈ (editFormSubmit st inp).items, i.id = inp.id →
      i.openedDate = none ∧ i.shelfLife = none := by
  intro i hi hid
  unfold editFormSubmit at hi
  cases hf : st.items.find? (fun x => x.id == inp.id) with
  | none =>
    rw [hf] at hi
    have := List.find?_eq_none.mp hf i hi
    exact absurd (by simp [hid]) this
  | some it =>
    rw [hf] at hi
    simp only [] at hi
    rcases updateFirst_nodup_id inp.id _ st.items hnd i hi hid with ⟨y, _, _, hxy⟩
    rw [hxy]
    simp [hopen]

/-- Fixture: a state holding one opened item with stale-prone fields set. -/
def stC7 : AppState :=
  mkState [{ mkItem "1" 2 (some ⟨"", "", ""⟩) with
    isOpened := true, openedDate := some ⟨2024, 5, 1⟩, shelfLife := some 3 }] []

/-- Fixture: an edit submission for that item with `isOpened` unchecked. -/
def edC7 : EditInput :=
  { id := "1", name := "Item1", category := "General", qty := some 2, expiry := none,
    isOpened := false, openedDate := some ⟨2024, 5, 1⟩, shelfLife := some 3,
    house := "", room := "", storage := "" }

/-- The item the edit produces. -/
def itemC7 : Item :=
  { id := "1", barcode := "", name := "Item1", category := "General", quantity := 2,
    isOpened := false, openedDate := none, shelfLife := none, expiry := none,
    location := some ⟨"", "", ""⟩, createdAt := 0 }

/-- Witness for C7 at the opened-item fixture. -/
theorem claim_C7_witness : itemC7.openedDate = none ∧ itemC7.shelfLife = none :=
  claim_C7 stC7 edC7 (by decide) rfl itemC7 (by decide) rfl

/-! ## Claim C4 -/

/-- Fixture: one item in category `"Food"`. -/
def stC4 : AppState := mkState [{ mkItem "1" 1 (some ⟨"", "", ""⟩) with category := "Food" }] []

/-- C4 fails on the code: category delete reassigns the affected item to
`"Uncategorized"` and records a `catDelete` undo action, but the effective
`performUndo` (the second top-level declaration, app.js:1424, which shadows
the first at app.js:644) has no `catDelete` branch: undo consumes and clears
the record while restoring neither the item's category nor the deleted
category in the category set. -/
theorem claim_C4_evidence :
    (deleteCategory stC4 "Food").items.map (fun i => i.category) = ["Uncategorized"] ∧
    (deleteCategory stC4 "Food").lastAction = some (Action.catDelete "Food" ["1"]) ∧
    (performUndo (deleteCategory stC4 "Food")).items.map (fun i => i.category) =
      ["Uncategorized"] ∧
    "Food" ∉ (performUndo (deleteCategory stC4 "Food")).categories ∧
    (performUndo (deleteCategory stC4 "Food")).lastAction = none := by
  refine ⟨by decide, by decide, by decide, by decide, by decide⟩

/-! ## Claim C3 -/

/-- C3 (amended): `getEffectiveExpiry` returns the earliest of the candidate
dates — the explicit expiry if present, and `openedDate` plus `shelfLife`
calendar months with day-of-month overflow carrying into the following month
(ECMAScript `setMonth` normalisation, not clamping) when `isOpened` and both
fields are present — and `none` when no candidate exists. -/
theorem claim_C3_amended (item : Item) :
    getEffectiveExpiry item = specEffectiveExpiryRoll item := by
  unfold getEffectiveExpiry specEffectiveExpiryRoll
  cases item.expiry <;> cases item.isOpened <;>
    cases item.openedDate <;> cases item.shelfLife <;>
    simp [addMonths_eq, toEpochDay]

/-- Fixture: an opened item whose derived date overflows February
(opened 2024-01-31, 1 month shelf life), with no explicit expiry. -/
def itemC3 : Item :=
  { mkItem "3" 1 (some ⟨"", "", ""⟩) with
    isOpened := true, openedDate := some ⟨2024, 1, 31⟩, shelfLife := some 1 }

/-- C3, as stated, is false: the claim's clamping rule would yield
2024-02-29, but the code's `setMonth` arithmetic rolls the overflow over to
2024-03-02. -/
theorem claim_C3_counterexample :
    getEffectiveExpiry itemC3 = some (daysFromCivil 2024 3 2) ∧
    specEffectiveExpiryClaim itemC3 = some (daysFromCivil 2024 2 29) ∧
    getEffectiveExpiry itemC3 ≠ specEffectiveExpiryClaim itemC3 := by
  refine ⟨by decide, by decide, by decide⟩

/-! ## Claim C5 -/

/-- The house-level dependent check of `deleteLocation` coincides with
"some item sits at or below the house". -/
theorem hasItems_eq_house (items : List Item) (name ph pr : String) :
    hasItems items name "" "" = items.any (itemAtOrBelow LocType.house name ph pr) := by
  unfold hasItems itemAtOrBelow
  congr 1
  funext i
  cases i.location with
  | none => rfl
  | some l => simp

/-- The room-level dependent check coincides with "some item sits at or
below the room", for non-empty room names. -/
theorem hasItems_eq_room (items : List Item) (name ph pr : String) (hname : name ≠ "") :
    hasItems items ph name "" = items.any (itemAtOrBelow LocType.room name ph pr) := by
  have h0 : (name == "") = false := by simpa using hname
  unfold hasItems itemAtOrBelow
  congr 1
  funext i
  cases i.location with
  | none => rfl
  | some l => simp [h0]

/-- The storage-level dependent check coincides with "some item sits at the
storage", for non-empty storage and room names. -/
theorem hasItems_eq_storage (items : List Item) (name ph pr : String)
    (hname : name ≠ "") (hpr : pr ≠ "") :
    hasItems items ph pr name = items.any (itemAtOrBelow LocType.storage name ph pr) := by
  have h0 : (name == "") = false := by simpa using hname
  have h1 : (pr == "") = false := by simpa using hpr
  unfold hasItems itemAtOrBelow
  congr 1
  funext i
  cases i.location with
  | none => rfl
  | some l => simp [h0, h1, Bool.and_assoc]

/-- C5: deleting a location node referenced by at least one item at or below
it is refused outright — the returned state equals the input state, tree,
undo slot and persistence count included; once no dependent item remains and
the node exists (in a tree whose storage arrays are duplicate-free), the same
delete succeeds and the node is gone from the tree. -/
theorem claim_C5 (st : AppState) (ty : LocType) (name ph pr : String)
    (hname : name ≠ "") (hpr : ty = LocType.storage → pr ≠ "") :
    (st.items.any (itemAtOrBelow ty name ph pr) = true →
      deleteLocation st ty name ph pr = Except.ok st)
    ∧ (st.items.any (itemAtOrBelow ty name ph pr) = false →
      nodeExists st.struct ty name ph pr = true →
      storagesNodup st.struct = true →
      ∃ st', deleteLocation st ty name ph pr = Except.ok st' ∧
        nodeExists st'.struct ty name ph pr = false) := by
  constructor
  · intro hdep
    cases ty with
    | house =>
      unfold deleteLocation
      rw [hasItems_eq_house st.items name ph pr, hdep]
      simp
    | room =>
      unfold deleteLocation
      rw [hasItems_eq_room st.items name ph pr hname, hdep]
      simp
    | storage =>
      unfold deleteLocation
      rw [hasItems_eq_storage st.items name ph pr hname (hpr rfl), hdep]
      simp
  · intro hdep hex hwf
    unfold nodeExists at hex
    cases ty with
    | house =>
      simp only [] at hex
      obtain ⟨rooms, hlk⟩ := Option.isSome_iff_exists.mp hex
      unfold deleteLocation
      rw [hasItems_eq_house st.items name ph pr, hdep, hlk]
      refine ⟨_, rfl, ?_⟩
      unfold nodeExists
      simp [lookupA_eraseA_self]
    | room =>
      simp only [] at hex
      obtain ⟨rooms, hlk⟩ : ∃ rooms, lookupA st.struct ph = some rooms := by
        cases h : lookupA st.struct ph with
        | none => rw [h] at hex; simp at hex
        | some r => exact ⟨r, rfl⟩
      rw [hlk] at hex
      simp only [] at hex
      obtain ⟨storages, hlk2⟩ := Option.isSome_iff_exists.mp hex
      unfold deleteLocation
      rw [hasItems_eq_room st.items name ph pr hname, hdep, hlk]
      simp only []
      rw [hlk2]
      refine ⟨_, rfl, ?_⟩
      unfold nodeExists
      rw [lookupA_setA_self]
      simp [lookupA_eraseA_self]
    | storage =>
      simp only [] at hex
      obtain ⟨rooms, hlk⟩ : ∃ rooms, lookupA st.struct ph = some rooms := by
        cases h : lookupA st.struct ph with
        | none => rw [h] at hex; simp at hex
        | some r => exact ⟨r, rfl⟩
      rw [hlk] at hex
      simp only [] at hex
      obtain ⟨arr, hlk2⟩ : ∃ arr, lookupA rooms pr = some arr := by
        cases h : lookupA rooms pr with
        | none => rw [h] at hex; simp at hex
        | some r => exact ⟨r, rfl⟩
      rw [hlk2] at hex
      simp only [] at hex
      have hmem : name ∈ arr := by simpa using hex
      rcases indexOfA_of_mem name arr hmem with ⟨idx, hidx⟩
      unfold deleteLocation
      rw [hasItems_eq_storage st.items name ph pr hname (hpr rfl), hdep, hlk]
      simp only []
      rw [hlk2]
      simp only []
      rw [hidx]
      refine ⟨_, rfl, ?_⟩
      have hnodup : arr.Nodup := storagesNodup_spec hwf hlk hlk2
      have hout := not_mem_eraseIdx_indexOfA name arr idx hnodup hidx
      unfold nodeExists
      rw [lookupA_setA_self]
      simp only []
      rw [lookupA_setA_self]
      simpa using hout

/-- Fixture: a tree `H → R → [S]` with one item stored at `H/R/S`. -/
def stC5a : AppState :=
  mkState [mkItem "1" 1 (some ⟨"H", "R", "S"⟩)] [("H", [("R", ["S"])])]

/-- Fixture: the same tree with no items. -/
def stC5b : AppState := mkState [] [("H", [("R", ["S"])])]

/-- Witness for C5: with a dependent item the storage delete is refused and
the state survives unchanged; without items it succeeds and removes `S`. -/
theorem claim_C5_witness :
    deleteLocation stC5a LocType.storage "S" "H" "R" = Except.ok stC5a ∧
    (∃ st', deleteLocation stC5b LocType.storage "S" "H" "R" = Except.ok st' ∧
      nodeExists st'.struct LocType.storage "S" "H" "R" = false) :=
  ⟨(claim_C5 stC5a LocType.storage "S" "H" "R" (by decide) (fun _ => by decide)).1 (by decide),
   (claim_C5 stC5b LocType.storage "S" "H" "R" (by decide) (fun _ => by decide)).2
     (by decide) (by decide) (by decide)⟩

/-! ## Claim C6 -/

/-- Fixture: two sibling houses `A` (room `r1`) and `B` (room `r2`). -/
def stC6 : AppState := mkState [] [("A", [("r1", [])]), ("B", [("r2", [])])]

/-- The state renaming house `A` to the already-existing name `B` produces. -/
def stC6' : AppState := { stC6 with struct := [("B", [("r1", [])])], saveCount := 1 }

/-- C6, as stated, is false: renaming house `A` to the existing sibling name
`B` does not fail with `Conflict` and does not leave the tree unchanged — it
succeeds and silently overwrites `B`'s subtree (room `r2` is lost). -/
theorem claim_C6_counterexample :
    renameLocation stC6 LocType.house "A" "B" "" "" = Except.ok stC6' ∧
    lookupA stC6.struct "B" = some [("r2", [])] ∧
    lookupA stC6'.struct "B" = some [("r1", [])] ∧
    stC6'.struct ≠ stC6.struct := by
  refine ⟨rfl, by decide, by decide, by decide⟩

/-- C6 (amended): `renameLocation` performs no conflict check — renaming a
house to an existing name overwrites that name's subtree (and the rename
never fails on a name collision) — and in every successful rename each item
referencing the old name at that level under the same ancestors is updated
to the new name while every other item is untouched. -/
theorem claim_C6_amended :
    (∀ (st : AppState) (ty : LocType) (oldName newName ph pr : String) (st' : AppState),
      newName ≠ "" → newName ≠ oldName →
      renameLocation st ty oldName newName ph pr = Except.ok st' →
      st'.items = st.items.map (cascadeRename ty oldName newName ph pr))
    ∧ (∀ (st : AppState) (oldName newName : String) (rooms : List (String × List String)),
      newName ≠ "" → newName ≠ oldName →
      lookupA st.struct oldName = some rooms →
      ∃ st', renameLocation st LocType.house oldName newName "" "" = Except.ok st' ∧
        lookupA st'.struct newName = some rooms ∧ lookupA st'.struct oldName = none) := by
  constructor
  · intro st ty oldName newName ph pr st' h1 h2 hok
    unfold renameLocation at hok
    rw [if_neg (not_or.mpr ⟨h1, h2⟩)] at hok
    cases ty with
    | house =>
      cases hl : lookupA st.struct oldName with
      | none => rw [hl] at hok; cases hok
      | some rooms =>
        rw [hl] at hok
        simp only [Except.ok.injEq] at hok
        subst hok
        simp only []
        congr 1
        funext i
        cases hi : i.location with
        | none => simp [cascadeRename, hi]
        | some l => simp [cascadeRename, hi]
    | room =>
      cases hl : lookupA st.struct ph with
      | none => rw [hl] at hok; cases hok
      | some rooms =>
        rw [hl] at hok
        simp only [] at hok
        cases hl2 : lookupA rooms oldName with
        | none => rw [hl2] at hok; cases hok
        | some storages =>
          rw [hl2] at hok
          simp only [Except.ok.injEq] at hok
          subst hok
          simp only []
          congr 1
          funext i
          cases hi : i.location with
          | none => simp [cascadeRename, hi]
          | some l => simp [cascadeRename, hi]
    | storage =>
      cases hl : lookupA st.struct ph with
      | none => rw [hl] at hok; cases hok
      | some rooms =>
        rw [hl] at hok
        simp only [] at hok
        cases hl2 : lookupA rooms pr with
        | none => rw [hl2] at hok; cases hok
        | some arr =>
          rw [hl2] at hok
          simp only [Except.ok.injEq] at hok
          subst hok
          simp only []
          congr 1
          funext i
          cases hi : i.location with
          | none => simp [cascadeRename, hi]
          | some l => simp [cascadeRename, hi]
  · intro st oldName newName rooms h1 h2 hl
    unfold renameLocation
    rw [if_neg (not_or.mpr ⟨h1, h2⟩), hl]
    refine ⟨_, rfl, ?_, ?_⟩
    · rw [lookupA_eraseA_ne _ _ _ h2]
      exact lookupA_setA_self _ _ _
    · exact lookupA_eraseA_self _ _

/-- Fixture: house `A` with room `r1` and one item located in it. -/
def stC6w : AppState := mkState [mkItem "1" 1 (some ⟨"A", "r1", ""⟩)] [("A", [("r1", [])])]

/-- The state renaming house `A` to the fresh name `C` produces. -/
def stC6w' : AppState :=
  { stC6w with
    items := [{ mkItem "1" 1 (some ⟨"A", "r1", ""⟩) with location := some ⟨"C", "r1", ""⟩ }],
    struct := [("C", [("r1", [])])],
    saveCount := 1 }

/-- Witness for C6 (amended): the item cascade on a fresh-name house rename,
and the overwrite behaviour on the colliding rename of the `stC6` fixture. -/
theorem claim_C6_witness :
    stC6w'.items = stC6w.items.map (cascadeRename LocType.house "A" "C" "" "") ∧
    (∃ st', renameLocation stC6 LocType.house "A" "B" "" "" = Except.ok st' ∧
      lookupA st'.struct "B" = some [("r1", [])] ∧ lookupA st'.struct "A" = none) :=
  ⟨claim_C6_amended.1 stC6w LocType.house "A" "C" "" "" stC6w' (by decide) (by decide) rfl,
   claim_C6_amended.2 stC6 "A" "B" [("r1", [])] (by decide) (by decide) (by decide)⟩

/-! ## Claim C8 -/

/-- Fixture: an item with a falsy (absent) location. -/
def itemC8n : Item := mkItem "n" 1 none

/-- Fixture: an item whose location key exceeds the `'zzz'` sentinel. -/
def itemC8z : Item := mkItem "z" 1 (some ⟨"zzzz", "", ""⟩)

unseal List.merge List.mergeSort in
/-- C8, as stated, is false: an item with no location does not sort after
every located item.  The comparator substitutes the literal key `'zzz'` for
a falsy location, so an item located at house `"zzzz"` sorts after the
location-less item. -/
theorem claim_C8_counterexample :
    itemC8n.location = none ∧ itemC8z.location.isSome = true ∧
    sortInventory [itemC8z, itemC8n] = [itemC8n, itemC8z] :=
  ⟨rfl, rfl, rfl⟩

/-- C8 (amended): sorting by location orders the items lexicographically
(code points) ascending by the key `house + room + storage`, where an item
with a falsy location is assigned the literal key `'zzz'` (sorting after
every key below `'zzz'` but before keys above it), and ties keep insertion
order — the fate of each equal-key group is exactly its input subsequence. -/
theorem claim_C8_amended (l : List Item) :
    List.Pairwise (fun a b => locLe a b = true) (sortInventory l)
    ∧ (sortInventory l).Perm l
    ∧ ∀ k : String, (sortInventory l).filter (fun i => locKey i == k) =
        l.filter (fun i => locKey i == k) := by
  refine ⟨List.sorted_mergeSort locLe_trans locLe_total l,
    List.mergeSort_perm l locLe, ?_⟩
  intro k
  have hsub : (l.filter (fun i => locKey i == k)).Sublist (sortInventory l) := by
    apply List.mergeSort_stable locLe_trans locLe_total
    · have hall : ∀ x ∈ l.filter (fun i => locKey i == k), locKey x = k := by
        intro x hx
        simpa using List.of_mem_filter hx
      revert hall
      generalize l.filter (fun i => locKey i == k) = c
      intro hall
      induction c with
      | nil => exact List.Pairwise.nil
      | cons a as ih =>
        constructor
        · intro b hb
          simp only [locLe]
          rw [hall a (by simp), hall b (by simp [hb])]
          exact charsLe_refl k.data
        · exact ih (fun x hx => hall x (by simp [hx]))
    · exact List.filter_sublist l
  have hsub2 : (l.filter (fun i => locKey i == k)).Sublist
      ((sortInventory l).filter (fun i => locKey i == k)) := by
    have h1 := hsub.filter (fun i => locKey i == k)
    have h2 : (l.filter (fun i => locKey i == k)).filter (fun i => locKey i == k) =
        l.filter (fun i => locKey i == k) := by
      rw [List.filter_filter]
      congr 1
      funext x
      simp [Bool.and_self]
    rwa [h2] at h1
  have hperm : ((sortInventory l).filter (fun i => locKey i == k)).Perm
      (l.filter (fun i => locKey i == k)) :=
    (List.mergeSort_perm l locLe).filter _
  exact (hsub2.eq_of_length hperm.length_eq.symm).symm

/-! ## Claim C10 -/

/-- An item with no effective expiry never passes the filter while a status
filter is active: the sentinel `daysLeft = 9999` fails the `expired` clause
(`9999 ≥ 0`) and the `soon` clause (`9999 > 30`) alike. -/
theorem filterItem_noexp_excluded (fs : Filters) (term : String) (today : Int) (item : Item)
    (hexp : getEffectiveExpiry item = none)
    (hact : fs.expired = true ∨ fs.soon = true) :
    filterItem fs term today item ≠ Except.ok true := by
  intro hok
  unfold filterItem at hok
  rw [hexp] at hok
  simp only [] at hok
  split at hok
  · exact absurd hok (by simp)
  · split at hok
    · exact absurd hok (by simp)
    · exact absurd hok (by simp)
    · split at hok
      · exact absurd hok (by simp)
      · split at hok
        · exact absurd hok (by simp)
        · split at hok
          · exact absurd hok (by simp)
          · split at hok
            · exact absurd hok (by simp)
            · rename_i h1 h2
              rcases hact with h | h
              · rw [h] at h1; simp at h1
              · rw [h] at h2; simp at h2

/-- Membership in a successfully filtered list means the filter accepted the
element. -/
theorem filterItems_mem (fs : Filters) (term : String) (today : Int) :
    ∀ (items out : List Item), filterItems fs term today items = Except.ok out →
      ∀ x ∈ out, filterItem fs term today x = Except.ok true := by
  intro items
  induction items with
  | nil =>
    intro out h x hx
    cases h
    simp at hx
  | cons i is ih =>
    intro out h x hx
    unfold filterItems at h
    cases hf : filterItem fs term today i with
    | error e => rw [hf] at h; cases h
    | ok b =>
      rw [hf] at h
      cases hr : filterItems fs term today is with
      | error e => rw [hr] at h; cases h
      | ok rest =>
        rw [hr] at h
        simp only [Except.ok.injEq] at h
        subst h
        cases b with
        | true =>
          rcases List.mem_cons.mp (by simpa using hx) with h' | h'
          · rw [h']; exact hf
          · exact ih rest hr x h'
        | false =>
          exact ih rest hr x (by simpa using hx)

/-- C10: an item whose effective expiry is `none` is excluded from every
query result produced while the `expired` or the `soon` status filter is
active. -/
theorem claim_C10 (fs : Filters) (term : String) (today : Int) (item : Item)
    (hexp : getEffectiveExpiry item = none)
    (hact : fs.expired = true ∨ fs.soon = true) :
    ∀ (items out : List Item), filterItems fs term today items = Except.ok out →
      item ∉ out := by
  intro items out h hmem
  exact filterItem_noexp_excluded fs term today item hexp hact
    (filterItems_mem fs term today items out h item hmem)

/-- Fixture: the expired-filter configuration. -/
def fsC10 : Filters :=
  { house := "", room := "", storage := "", category := "",
    showZero := false, expired := true, soon := false }

/-- Fixture: an in-stock item with no expiry data at all. -/
def itemC10 : Item := mkItem "x" 5 (some ⟨"", "", ""⟩)

/-- Witness for C10: with the expired filter active, the no-expiry item is
filtered out of the rendered list. -/
theorem claim_C10_witness :
    filterItems fsC10 "" 0 [itemC10] = Except.ok [] ∧ itemC10 ∉ ([] : List Item) :=
  ⟨rfl, claim_C10 fsC10 "" 0 itemC10 rfl (Or.inl rfl) [itemC10] [] rfl⟩

end Inventory
